import Mathlib

/-!
Verification of the top-query pipeline of `src/app.py`.

`get_top_query` (app.py lines 171-201) takes the per-(query, page) search
records returned by the Record Source, optionally filters out brand
queries and zero-click rows, and assigns to every row the "top query" of
its page: the query of the row that ranks first when the page's rows are
ordered by the selected metric descending.  The pandas operations are
modelled as follows:

* a DataFrame row is a `Record`; a DataFrame is a `List Record` in row order;
* `df.sort_values(by=[k1, k2], ascending=[True, False])` sorts by two
  columns, which pandas performs with a stable lexicographic sort
  (`numpy.lexsort`); it is modelled by `List.insertionSort` with the
  corresponding total key preorder, which computes the same list (the
  stable sort by a total preorder is unique);
* `df.groupby('page')['query'].transform('first')` gives every row the
  `query` field of the first row of the frame with the same `page`;
* `df.groupby('page')['top_query'].transform('count')` gives every row the
  number of rows of the frame with the same `page` (no value is null);
* `df[~df['query'].str.contains(pattern)]` keeps the rows whose `query`
  does not match `pattern` as a regular expression (`re.search` semantics,
  the pandas default `regex=True`).
-/

/-- One search-analytics row: the record schema `{query, page, clicks,
impressions, ctr}` fetched by `fetch_query_page`.  `ctr` is carried through
the pipeline unchanged and is modelled as a rational number. -/
structure Record where
  query : String
  page : String
  clicks : Nat
  impressions : Nat
  ctr : Rat
deriving DecidableEq

/-- The ranking metric chosen in the UI radio selector: the `metrics`
argument of `get_top_query` is either the column name "clicks" or the
column name "impressions". -/
inductive Metric where
  | clicks
  | impressions
deriving DecidableEq

/-- Value of the selected metric column of a record. -/
def metricVal : Metric → Record → Nat
  | Metric.clicks, r => r.clicks
  | Metric.impressions, r => r.impressions

/-- Python `str.split(sep)` for a one-character separator, on character
lists.  Never returns `[]`; `"".split(',') = ['']` is matched by
`splitOnChar sep [] = [[]]`. -/
def splitOnChar (sep : Char) : List Char → List (List Char)
  | [] => [[]]
  | c :: cs =>
    if c = sep then [] :: splitOnChar sep cs
    else
      match splitOnChar sep cs with
      | [] => [[c]]
      | h :: t => (c :: h) :: t

/-- The ASCII whitespace characters removed by Python `str.strip()`. -/
def stripChar (c : Char) : Bool :=
  c == ' ' || c == '\t' || c == '\n' || c == '\r' || c == '\x0b' || c == '\x0c'

/-- Python `str.strip()`: drop whitespace from both ends. -/
def stripEnds (l : List Char) : List Char :=
  ((l.dropWhile stripChar).reverse.dropWhile stripChar).reverse

/-- The metacharacters of Python regular expressions.  A pattern avoiding
all of them is matched literally by `re.search`. -/
def regexMeta (c : Char) : Bool :=
  c == '.' || c == '|' || c == '*' || c == '+' || c == '?' || c == '(' ||
  c == ')' || c == '[' || c == ']' || c == '\x7b' || c == '\x7d' ||
  c == '^' || c == '$' || c == '\\'

/-- One regex character pattern: `.` matches any character, anything else
matches itself (the fragment of Python regex the brand filter can build
out of metacharacter-free terms joined with `|`). -/
def charMatch (p c : Char) : Bool := p == '.' || p == c

/-- The piece `p` matches a prefix of `s`, character by character. -/
def matchHere : List Char → List Char → Bool
  | [], _ => true
  | _ :: _, [] => false
  | p :: ps, c :: cs => charMatch p c && matchHere ps cs

/-- `re.search` for one alternation-free piece: the piece matches at some
position of `s`. -/
def searchPiece (piece : List Char) : List Char → Bool
  | [] => matchHere piece []
  | c :: cs => matchHere piece (c :: cs) || searchPiece piece cs

/-- Models `re.search pattern s` succeeding — the semantics of
`Series.str.contains(pattern)` with its default `regex=True` — for the
pattern fragment the app can build: an alternation (`|`) of pieces in
which `.` matches any character and every other character is literal.
The model is faithful exactly when the pattern contains no character of
`regexMeta` other than `.` and `|`. -/
def regexSearch (pattern s : List Char) : Bool :=
  (splitOnChar '|' pattern).any (fun piece => searchPiece piece s)

/-- Lines 182-184 of `app.py`: when `brand_term` is non-empty (Python
truthiness of the text-input string), split it on commas, strip each term,
join the terms with `|` into one pattern, and keep only the records whose
`query` does not match the pattern (`~df['query'].str.contains(...)`). -/
def brandFilter (brand_term : String) (records : List Record) : List Record :=
  if brand_term = "" then records
  else
    records.filter (fun r =>
      !(regexSearch
        (List.intercalate ['|'] ((splitOnChar ',' brand_term.toList).map stripEnds))
        r.query.toList))

/-- Literal (regex-free) prefix match. -/
def litHere : List Char → List Char → Bool
  | [], _ => true
  | _ :: _, [] => false
  | p :: ps, c :: cs => p == c && litHere ps cs

/-- Case-sensitive substring containment — the matching §4.1 of the spec
describes for brand terms. -/
def litSearch (piece : List Char) : List Char → Bool
  | [] => litHere piece []
  | c :: cs => litHere piece (c :: cs) || litSearch piece cs

/-- Modelled from the spec: the brand filter as §4.1 words it — drop
exactly the records whose `query` contains one of the trimmed
comma-separated terms as a case-sensitive substring.  Stated from the
spec's words in order to compare it with `brandFilter`, which follows
the source and matches the terms as a regular expression. -/
def brandFilterSpec (brand_term : String) (records : List Record) : List Record :=
  if brand_term = "" then records
  else
    records.filter (fun r =>
      !(((splitOnChar ',' brand_term.toList).map stripEnds).any
        (fun t => litSearch t r.query.toList)))

/-- Lines 186-188 of `app.py`: when the `zero_clicks` argument is the
string "Si", keep only the records with `clicks > 0`
(`df.loc[df['clicks']>0]`); any other value leaves the frame unchanged. -/
def zeroClickFilter (zero_clicks : String) (records : List Record) : List Record :=
  if zero_clicks = "Si" then records.filter (fun r => 0 < r.clicks) else records

/-- The record collection reaching the aggregation steps: brand filter
first (lines 182-184), then zero-click filter (lines 186-188). -/
def filteredRecords (brand_term zero_clicks : String) (records : List Record) :
    List Record :=
  zeroClickFilter zero_clicks (brandFilter brand_term records)

/-- Strings with equal character data are equal. -/
theorem string_data_inj {a b : String} (h : a.data = b.data) : a = b := by
  cases a; cases b; exact congrArg String.mk h

/-- The key preorder of `df.sort_values(by=['page', metrics],
ascending=[True, False])` (line 190): `page` ascending, ties ordered by
the selected metric descending.  pandas compares Python strings, which
order lexicographically by code point: the lexicographic order on the
character list `String.data`. -/
def pageMetricLE (m : Metric) (a b : Record) : Prop :=
  a.page.data < b.page.data ∨ (a.page = b.page ∧ metricVal m b ≤ metricVal m a)

instance (m : Metric) : DecidableRel (pageMetricLE m) := fun a b =>
  decidable_of_iff
    (a.page.data < b.page.data ∨ (a.page = b.page ∧ metricVal m b ≤ metricVal m a))
    Iff.rfl

instance (m : Metric) : IsTotal Record (pageMetricLE m) where
  total a b := by
    unfold pageMetricLE
    rcases lt_trichotomy a.page.data b.page.data with h | h | h
    · exact Or.inl (Or.inl h)
    · rcases Nat.le_total (metricVal m b) (metricVal m a) with hm | hm
      · exact Or.inl (Or.inr ⟨string_data_inj h, hm⟩)
      · exact Or.inr (Or.inr ⟨(string_data_inj h).symm, hm⟩)
    · exact Or.inr (Or.inl h)

instance (m : Metric) : IsTrans Record (pageMetricLE m) where
  trans a b c hab hbc := by
    unfold pageMetricLE at hab hbc ⊢
    rcases hab with h1 | ⟨e1, m1⟩ <;> rcases hbc with h2 | ⟨e2, m2⟩
    · exact Or.inl (lt_trans h1 h2)
    · exact Or.inl (by rw [← e2]; exact h1)
    · exact Or.inl (by rw [e1]; exact h2)
    · exact Or.inr ⟨e1.trans e2, le_trans m2 m1⟩

/-- One output row, with the exported columns in their output order
(line 197): `top_query, query, clicks, impressions, ctr,
q_pages_top_query, page`. -/
structure RankedRecord where
  top_query : String
  query : String
  clicks : Nat
  impressions : Nat
  ctr : Rat
  q_pages_top_query : Nat
  page : String
deriving DecidableEq

/-- Value of the selected metric column of an output row. -/
def metricValR : Metric → RankedRecord → Nat
  | Metric.clicks, r => r.clicks
  | Metric.impressions, r => r.impressions

/-- The key preorder of the final `df.sort_values(by=['top_query',
metrics], ascending=[True, False])` (line 199). -/
def topMetricLE (m : Metric) (a b : RankedRecord) : Prop :=
  a.top_query.data < b.top_query.data ∨
    (a.top_query = b.top_query ∧ metricValR m b ≤ metricValR m a)

instance (m : Metric) : DecidableRel (topMetricLE m) := fun a b =>
  decidable_of_iff
    (a.top_query.data < b.top_query.data ∨
      (a.top_query = b.top_query ∧ metricValR m b ≤ metricValR m a)) Iff.rfl

instance (m : Metric) : IsTotal RankedRecord (topMetricLE m) where
  total a b := by
    unfold topMetricLE
    rcases lt_trichotomy a.top_query.data b.top_query.data with h | h | h
    · exact Or.inl (Or.inl h)
    · rcases Nat.le_total (metricValR m b) (metricValR m a) with hm | hm
      · exact Or.inl (Or.inr ⟨string_data_inj h, hm⟩)
      · exact Or.inr (Or.inr ⟨(string_data_inj h).symm, hm⟩)
    · exact Or.inr (Or.inl h)

instance (m : Metric) : IsTrans RankedRecord (topMetricLE m) where
  trans a b c hab hbc := by
    unfold topMetricLE at hab hbc ⊢
    rcases hab with h1 | ⟨e1, m1⟩ <;> rcases hbc with h2 | ⟨e2, m2⟩
    · exact Or.inl (lt_trans h1 h2)
    · exact Or.inl (by rw [← e2]; exact h1)
    · exact Or.inl (by rw [e1]; exact h2)
    · exact Or.inr ⟨e1.trans e2, le_trans m2 m1⟩

/-- Lines 193-197 of `app.py` for one row `r` of the page-sorted frame
`sorted`: `top_query` is `groupby('page')['query'].transform('first')` —
the `query` of the first row of the frame with the same `page` (the `getD`
default is never reached, since `r` itself is such a row) — and
`q_pages_top_query` is `groupby('page')['top_query'].transform('count')` —
the number of rows of the frame with the same `page`. -/
def toRanked (sorted : List Record) (r : Record) : RankedRecord where
  top_query :=
    ((sorted.find? (fun s => s.page == r.page)).map Record.query).getD r.query
  query := r.query
  clicks := r.clicks
  impressions := r.impressions
  ctr := r.ctr
  q_pages_top_query := (sorted.filter (fun s => s.page == r.page)).length
  page := r.page

/-- Lines 193-197 applied to every row of the page-sorted frame. -/
def addTopQuery (sorted : List Record) : List RankedRecord :=
  sorted.map (toRanked sorted)

/-- Lines 171-201 of `app.py`, given the collection the Record Source
returned (`fetch_query_page` output; an empty frame raises
`"No hay Dataframe"`, line 178).  The two multi-column `sort_values`
calls are stable sorts by their key preorders; `reset_index(drop=True)`
does not change the row order and has no analogue here. -/
def get_top_query (records : List Record) (metrics : Metric)
    (brand_term zero_clicks : String) : Except String (List RankedRecord) :=
  if records.isEmpty then Except.error "No hay Dataframe"
  else
    let df := filteredRecords brand_term zero_clicks records
    let sorted := List.insertionSort (pageMetricLE metrics) df
    Except.ok (List.insertionSort (topMetricLE metrics) (addTopQuery sorted))

/-- The maximum metric value over a record list (0 when the list is
empty). -/
def maxMetric (m : Metric) (l : List Record) : Nat :=
  l.foldr (fun r acc => max (metricVal m r) acc) 0

/-- The seven exported columns of one output row, in the order of line 197
of `app.py` and of the CSV header. -/
def outputRow (r : RankedRecord) :
    String × String × Nat × Nat × Rat × Nat × String :=
  (r.top_query, r.query, r.clicks, r.impressions, r.ctr,
    r.q_pages_top_query, r.page)

/-! Stability of the modelled sorts: filtering an insertion sort by a
predicate whose holders are pairwise tied under the sort relation yields
the same list as filtering the unsorted input, i.e. the sort keeps tied
rows in their input order. -/

theorem filter_orderedInsert_neg {α : Type} (r : α → α → Prop) [DecidableRel r]
    (q : α → Bool) (x : α) (hx : q x = false) (s : List α) :
    (List.orderedInsert r x s).filter q = s.filter q := by
  induction s with
  | nil => simp [hx]
  | cons y t ih =>
    by_cases h : r x y
    · simp [List.orderedInsert, h, List.filter_cons, hx]
    · simp only [List.orderedInsert, if_neg h, List.filter_cons]
      cases hqy : q y <;> simp [hqy, ih, List.filter_cons]

theorem filter_orderedInsert_pos {α : Type} (r : α → α → Prop) [DecidableRel r]
    (q : α → Bool) (x : α) (hx : q x = true)
    (htie : ∀ y, q y = true → r x y) (s : List α) :
    (List.orderedInsert r x s).filter q = x :: s.filter q := by
  induction s with
  | nil => simp [hx]
  | cons y t ih =>
    by_cases h : r x y
    · simp [List.orderedInsert, h, List.filter_cons, hx]
    · have hqy : q y = false := by
        cases hqy : q y
        · rfl
        · exact absurd (htie y hqy) h
      simp only [List.orderedInsert, if_neg h, List.filter_cons, hqy,
        if_neg Bool.false_ne_true]
      simp [ih]

theorem filter_insertionSort {α : Type} (r : α → α → Prop) [DecidableRel r]
    (q : α → Bool) (htie : ∀ a b, q a = true → q b = true → r a b)
    (l : List α) : (List.insertionSort r l).filter q = l.filter q := by
  induction l with
  | nil => rfl
  | cons x l ih =>
    rw [List.insertionSort]
    cases hx : q x
    · rw [filter_orderedInsert_neg r q x hx, ih, List.filter_cons]
      simp [hx]
    · rw [filter_orderedInsert_pos r q x hx (fun y hy => htie x y hx hy), ih,
        List.filter_cons]
      simp [hx]

/-- `find?` returns the head of the filtered list. -/
theorem find?_eq_filter_head? {α : Type} (q : α → Bool) (l : List α) :
    l.find? q = (l.filter q).head? := by
  induction l with
  | nil => rfl
  | cons x t ih =>
    cases hx : q x
    · rw [List.find?_cons_of_neg t (by simp [hx]), List.filter_cons,
        if_neg (by simp [hx])]
      exact ih
    · rw [List.find?_cons_of_pos t hx, List.filter_cons, if_pos hx,
        List.head?_cons]

/-- If the head of a list satisfies `q`, it heads the filtered list. -/
theorem filter_head?_of_pos {α : Type} {q : α → Bool} {x : α} {l : List α}
    (h : l.head? = some x) (hx : q x = true) : (l.filter q).head? = some x := by
  cases l with
  | nil => cases h
  | cons y t =>
    obtain rfl : y = x := by cases h; rfl
    simp [List.filter_cons, hx]

/-- Every member's metric is at most the maximum of its list. -/
theorem le_maxMetric_of_mem {m : Metric} {r : Record} :
    ∀ {l : List Record}, r ∈ l → metricVal m r ≤ maxMetric m l
  | x :: t, h => by
    rcases List.mem_cons.mp h with rfl | h
    · exact le_max_left _ _
    · exact le_trans (le_maxMetric_of_mem h) (le_max_right _ _)

/-- A non-empty list has a member achieving the maximal metric. -/
theorem exists_maxMetric {m : Metric} :
    ∀ {l : List Record}, l ≠ [] → ∃ r ∈ l, metricVal m r = maxMetric m l
  | [x], _ => ⟨x, List.mem_singleton_self x, by simp [maxMetric]⟩
  | x :: y :: t, _ => by
    rcases le_total (maxMetric m (y :: t)) (metricVal m x) with h | h
    · exact ⟨x, List.mem_cons_self _ _, (max_eq_left h).symm⟩
    · obtain ⟨r, hr, hmax⟩ := exists_maxMetric (l := y :: t) (by simp)
      exact ⟨r, List.mem_cons_of_mem _ hr,
        hmax.trans (max_eq_right h).symm⟩

/-- The filters send the empty frame to the empty frame. -/
theorem filteredRecords_nil (bt zc : String) : filteredRecords bt zc [] = [] := by
  unfold filteredRecords brandFilter zeroClickFilter
  split_ifs <;> simp

/-- C1: for every page of the filtered input, the pipeline assigns as the
page's `top_query` the query of a record with the maximum selected metric
in the page's partition of the filtered input, and on metric ties it
selects the record occurring first in the filtered input — the intra-page
descending sort (line 190) is stable. -/
theorem top_query_is_first_max
    (records : List Record) (m : Metric) (bt zc : String) (p : String)
    (out : List RankedRecord) (o : RankedRecord)
    (hout : get_top_query records m bt zc = Except.ok out)
    (ho : o ∈ out) (hp : o.page = p) :
    (((filteredRecords bt zc records).filter (fun s => s.page == p)).find?
        (fun s => metricVal m s ==
          maxMetric m ((filteredRecords bt zc records).filter (fun s => s.page == p)))).map
      Record.query = some o.top_query := by
  cases hre : records.isEmpty
  · simp only [get_top_query, hre, Bool.false_eq_true, if_false] at hout
    rw [Except.ok.injEq] at hout
    subst hout
    set flt := filteredRecords bt zc records with hflt
    set srt := List.insertionSort (pageMetricLE m) flt with hsrt
    obtain ⟨r, hr, rfl⟩ :=
      List.mem_map.mp (((List.perm_insertionSort (topMetricLE m) _).mem_iff).mp ho)
    have hrp : r.page = p := hp
    have hmemF : r ∈ srt.filter (fun s => s.page == p) :=
      List.mem_filter.mpr ⟨hr, by simp [hrp]⟩
    have hFne : srt.filter (fun s => s.page == p) ≠ [] := List.ne_nil_of_mem hmemF
    obtain ⟨f0, Ft, hF⟩ : ∃ f0 Ft, srt.filter (fun s => s.page == p) = f0 :: Ft := by
      cases hFc : srt.filter (fun s => s.page == p) with
      | nil => exact absurd hFc hFne
      | cons a l => exact ⟨a, l, rfl⟩
    have hs : List.Sorted (pageMetricLE m) srt := List.sorted_insertionSort _ _
    have hsF : List.Sorted (pageMetricLE m) (f0 :: Ft) := by
      rw [← hF]; exact List.Pairwise.sublist (List.filter_sublist srt) hs
    have hpermF : List.Perm (srt.filter (fun s => s.page == p))
        (flt.filter (fun s => s.page == p)) :=
      (List.perm_insertionSort (pageMetricLE m) flt).filter (fun s => s.page == p)
    have hf0F : f0 ∈ srt.filter (fun s => s.page == p) := by
      rw [hF]; exact List.mem_cons_self _ _
    have hf0grp : f0 ∈ flt.filter (fun s => s.page == p) := hpermF.mem_iff.mp hf0F
    have hf0p : f0.page = p := by
      have h2 := (List.mem_filter.mp hf0F).2
      simpa using h2
    set M := maxMetric m (flt.filter (fun s => s.page == p)) with hM
    have hgrpne : flt.filter (fun s => s.page == p) ≠ [] := List.ne_nil_of_mem hf0grp
    have hle : metricVal m f0 ≤ M := le_maxMetric_of_mem hf0grp
    obtain ⟨rx, hrx, hrxM⟩ := exists_maxMetric (m := m) hgrpne
    rw [← hM] at hrxM
    have hrxF : rx ∈ f0 :: Ft := by rw [← hF]; exact hpermF.mem_iff.mpr hrx
    have hge : M ≤ metricVal m f0 := by
      rcases List.mem_cons.mp hrxF with rfl | hrxFt
      · exact le_of_eq hrxM.symm
      · have hrel : pageMetricLE m f0 rx := List.rel_of_sorted_cons hsF rx hrxFt
        have hrxp : rx.page = p := by
          have hrxF2 : rx ∈ srt.filter (fun s => s.page == p) := by rw [hF]; exact hrxF
          have h2 := (List.mem_filter.mp hrxF2).2
          simpa using h2
        rcases hrel with hlt | ⟨_, hm⟩
        · exfalso
          rw [hf0p, hrxp] at hlt
          exact lt_irrefl _ hlt
        · exact hrxM ▸ hm
    have hf0M : metricVal m f0 = M := le_antisymm hle hge
    have hstab : srt.filter (fun a => (metricVal m a == M) && (a.page == p)) =
        flt.filter (fun a => (metricVal m a == M) && (a.page == p)) := by
      apply filter_insertionSort
      intro a b ha hb
      simp only [Bool.and_eq_true, beq_iff_eq] at ha hb
      exact Or.inr ⟨ha.2.trans hb.2.symm, le_of_eq (hb.1.trans ha.1.symm)⟩
    have hchain : (srt.filter (fun s => s.page == p)).filter (fun s => metricVal m s == M)
        = (flt.filter (fun s => s.page == p)).filter (fun s => metricVal m s == M) := by
      rw [List.filter_filter, List.filter_filter]
      exact hstab
    have hhead : ((srt.filter (fun s => s.page == p)).filter
        (fun s => metricVal m s == M)).head? = some f0 := by
      apply filter_head?_of_pos
      · rw [hF]; rfl
      · simp [hf0M]
    have hfind : (flt.filter (fun s => s.page == p)).find?
        (fun s => metricVal m s == M) = some f0 := by
      rw [find?_eq_filter_head?, ← hchain, hhead]
    have hq : (toRanked srt r).top_query = f0.query := by
      show ((srt.find? (fun s => s.page == r.page)).map Record.query).getD r.query
        = f0.query
      rw [hrp, find?_eq_filter_head?, hF]
      rfl
    rw [hfind, hq]
    rfl
  · simp [get_top_query, hre] at hout

/-! Helper lemmas for the brand filter: splitting, joining and the
literal reading of metacharacter-free patterns. -/

theorem splitOnChar_ne_nil (sep : Char) (l : List Char) : splitOnChar sep l ≠ [] := by
  induction l with
  | nil => simp [splitOnChar]
  | cons c cs ih =>
    by_cases h : c = sep
    · simp [splitOnChar, h]
    · simp only [splitOnChar, if_neg h]
      cases hs : splitOnChar sep cs with
      | nil => simp
      | cons a t => simp

theorem splitOnChar_of_not_mem (sep : Char) (t : List Char) (h : sep ∉ t) :
    splitOnChar sep t = [t] := by
  induction t with
  | nil => rfl
  | cons c cs ih =>
    have hc : ¬ c = sep := by
      intro e
      exact h (by rw [← e]; exact List.mem_cons_self c cs)
    have hcs : sep ∉ cs := fun e => h (List.mem_cons_of_mem c e)
    simp only [splitOnChar, if_neg hc, ih hcs]

theorem splitOnChar_append (sep : Char) (t rest : List Char) (h : sep ∉ t) :
    splitOnChar sep (t ++ sep :: rest) = t :: splitOnChar sep rest := by
  induction t with
  | nil => simp [splitOnChar]
  | cons c cs ih =>
    have hc : ¬ c = sep := by
      intro e
      exact h (by rw [← e]; exact List.mem_cons_self c cs)
    have hcs : sep ∉ cs := fun e => h (List.mem_cons_of_mem c e)
    simp only [List.cons_append, splitOnChar, if_neg hc, List.append_eq, ih hcs]

theorem intercalate_cons_cons (sep : List Char) (t t2 : List Char)
    (ts : List (List Char)) :
    List.intercalate sep (t :: t2 :: ts) = t ++ sep ++ List.intercalate sep (t2 :: ts) := by
  simp [List.intercalate, List.intersperse]

theorem splitOnChar_intercalate (sep : Char) (ts : List (List Char))
    (hne : ts ≠ []) (hsep : ∀ t ∈ ts, sep ∉ t) :
    splitOnChar sep (List.intercalate [sep] ts) = ts := by
  induction ts with
  | nil => exact absurd rfl hne
  | cons t ts ih =>
    cases ts with
    | nil =>
      have h1 : List.intercalate [sep] [t] = t := by
        simp [List.intercalate, List.intersperse]
      rw [h1, splitOnChar_of_not_mem sep t (hsep t (List.mem_cons_self t []))]
    | cons t2 ts2 =>
      rw [intercalate_cons_cons, List.append_assoc, List.singleton_append,
        splitOnChar_append sep t _ (hsep t (List.mem_cons_self t _)),
        ih (by simp) (fun u hu => hsep u (List.mem_cons_of_mem t hu))]

theorem charMatch_eq_beq {p : Char} (h : regexMeta p = false) (c : Char) :
    charMatch p c = (p == c) := by
  have hne : p ≠ '.' := by
    intro e
    rw [e] at h
    simp [regexMeta] at h
  simp [charMatch, beq_eq_false_iff_ne, hne]

theorem matchHere_eq_litHere {t : List Char}
    (h : ∀ c ∈ t, regexMeta c = false) :
    ∀ s : List Char, matchHere t s = litHere t s := by
  induction t with
  | nil => intro s; cases s <;> rfl
  | cons p ps ih =>
    intro s
    cases s with
    | nil => rfl
    | cons c cs =>
      simp only [matchHere, litHere,
        charMatch_eq_beq (h p (List.mem_cons_self p ps)) c,
        ih (fun u hu => h u (List.mem_cons_of_mem p hu)) cs]

theorem searchPiece_eq_litSearch {t : List Char}
    (h : ∀ c ∈ t, regexMeta c = false) (s : List Char) :
    searchPiece t s = litSearch t s := by
  induction s with
  | nil => simp only [searchPiece, litSearch, matchHere_eq_litHere h]
  | cons c cs ih => simp only [searchPiece, litSearch, matchHere_eq_litHere h, ih]

theorem any_congr_mem {α : Type} {l : List α} {f g : α → Bool}
    (h : ∀ a ∈ l, f a = g a) : l.any f = l.any g := by
  induction l with
  | nil => rfl
  | cons x t ih =>
    simp only [List.any_cons, h x (List.mem_cons_self x t),
      ih (fun a ha => h a (List.mem_cons_of_mem x ha))]

/-! Concrete rows used in the closed-form runs below. -/

def rowA : Record :=
  { query := "a", page := "/x", clicks := 5, impressions := 7, ctr := 0 }

def rowB : Record :=
  { query := "b", page := "/x", clicks := 5, impressions := 9, ctr := 0 }

def brandedRow : Record :=
  { query := "mybrand shoes", page := "/x", clicks := 3, impressions := 5, ctr := 0 }

def plainRow : Record :=
  { query := "other shoes", page := "/y", clicks := 2, impressions := 6, ctr := 0 }

def dotlessRow : Record :=
  { query := "abc", page := "/x", clicks := 1, impressions := 1, ctr := 0 }

def zeroRow : Record :=
  { query := "z", page := "/z", clicks := 0, impressions := 4, ctr := 0 }

def outRowA : RankedRecord :=
  { top_query := "a", query := "a", clicks := 5, impressions := 7, ctr := 0,
    q_pages_top_query := 2, page := "/x" }

def outRowB : RankedRecord :=
  { top_query := "a", query := "b", clicks := 5, impressions := 9, ctr := 0,
    q_pages_top_query := 2, page := "/x" }

/-- A successful run returns the final sort of the annotated page-sorted
filtered frame. -/
theorem get_top_query_ok_eq (records : List Record) (m : Metric) (bt zc : String)
    (outp : List RankedRecord)
    (hout : get_top_query records m bt zc = Except.ok outp) :
    outp = List.insertionSort (topMetricLE m)
      (addTopQuery (List.insertionSort (pageMetricLE m)
        (filteredRecords bt zc records))) := by
  cases hre : records.isEmpty
  · simp only [get_top_query, hre, Bool.false_eq_true, if_false] at hout
    rw [Except.ok.injEq] at hout
    exact hout.symm
  · simp [get_top_query, hre] at hout

/-- C2 counterexample: a non-empty source whose records are all removed by
the brand filter does not make `get_top_query` fail — it returns an empty
table rather than an `EmptyInput` error, refuting the claim that the
pipeline raises whenever filtering removes every record before
aggregation. -/
theorem filtered_empty_not_error :
    filteredRecords "brand" "No" [brandedRow] = [] ∧
    get_top_query [brandedRow] Metric.clicks "brand" "No" =
      Except.ok ([] : List RankedRecord) :=
  ⟨rfl, rfl⟩

/-- C2 amended: the pipeline fails with the `"No hay Dataframe"` error
(the spec's `EmptyInput`) exactly when the Record Source returns no
records, provided the brand-term pattern stays in the regex fragment the
model is faithful to — every character of every trimmed term either is
no regex metacharacter or is `.` or `|`, the two metacharacters
`regexSearch` implements.  Such patterns always compile, so line 184
cannot raise `re.error`; a term outside this fragment (say "c++" or "(")
makes `re.compile` fail in the source, a failure path this model does
not cover.  Within the fragment, a non-empty source always yields an
`ok` table — even when the filters remove every record, in which case
that table is empty — and a failed run returns no rows at all. -/
theorem error_iff_source_empty (records : List Record) (m : Metric)
    (bt zc : String)
    (hpat : ∀ t ∈ (splitOnChar ',' bt.toList).map stripEnds,
      ∀ c ∈ t, regexMeta c = false ∨ c = '.' ∨ c = '|') :
    (records = [] → get_top_query records m bt zc = Except.error "No hay Dataframe") ∧
    (records ≠ [] → ∃ outp : List RankedRecord,
      get_top_query records m bt zc = Except.ok outp) := by
  constructor
  · rintro rfl
    rfl
  · intro h
    have hne : records.isEmpty = false := by
      cases hre : records.isEmpty
      · rfl
      · exact absurd (List.isEmpty_iff.mp hre) h
    refine ⟨List.insertionSort (topMetricLE m) (addTopQuery
      (List.insertionSort (pageMetricLE m) (filteredRecords bt zc records))), ?_⟩
    simp only [get_top_query, hne, Bool.false_eq_true, if_false]

/-- C2 amended witness: with the in-fragment brand term "brand", the
empty source fails with the error. -/
theorem error_iff_source_empty_witness :
    get_top_query [] Metric.clicks "brand" "No" = Except.error "No hay Dataframe" :=
  (error_iff_source_empty [] Metric.clicks "brand" "No" (by decide)).1 rfl

/-- C3: on a non-empty filtered input, a successful run is globally sorted
by `top_query` ascending with ties by the selected metric descending, and
every output row carries exactly the seven columns `top_query, query,
clicks, impressions, ctr, q_pages_top_query, page` in that order. -/
theorem output_sorted_and_columns (records : List Record) (m : Metric)
    (bt zc : String) (outp : List RankedRecord)
    (hf : filteredRecords bt zc records ≠ [])
    (hout : get_top_query records m bt zc = Except.ok outp) :
    List.Sorted (topMetricLE m) outp ∧
    ∀ o ∈ outp, outputRow o =
      (o.top_query, o.query, o.clicks, o.impressions, o.ctr,
        o.q_pages_top_query, o.page) := by
  rw [get_top_query_ok_eq records m bt zc outp hout]
  exact ⟨List.sorted_insertionSort _ _, fun o _ => rfl⟩

/-- C3 witness: a concrete successful run with a non-empty filtered input
is sorted by the output key preorder. -/
theorem output_sorted_and_columns_witness :
    List.Sorted (topMetricLE Metric.clicks) [outRowA, outRowB] :=
  (output_sorted_and_columns [rowA, rowB] Metric.clicks "" "No"
    [outRowA, outRowB] (by decide) rfl).1

/-- C4: every output row of a successful run keeps the base fields of the
filtered record that produced it, its `top_query` is a query observed for
its page in the filtered input, and `q_pages_top_query` is the number of
filtered records sharing its page. -/
theorem output_row_invariants (records : List Record) (m : Metric)
    (bt zc : String) (outp : List RankedRecord) (o : RankedRecord)
    (hout : get_top_query records m bt zc = Except.ok outp) (ho : o ∈ outp) :
    (∃ r ∈ filteredRecords bt zc records,
      o.page = r.page ∧ o.query = r.query ∧ o.clicks = r.clicks ∧
        o.impressions = r.impressions ∧ o.ctr = r.ctr) ∧
    (∃ r ∈ filteredRecords bt zc records,
      r.page = o.page ∧ o.top_query = r.query) ∧
    o.q_pages_top_query =
      ((filteredRecords bt zc records).filter (fun s => s.page == o.page)).length := by
  rw [get_top_query_ok_eq records m bt zc outp hout] at ho
  set flt := filteredRecords bt zc records with hflt
  set srt := List.insertionSort (pageMetricLE m) flt with hsrt
  obtain ⟨r, hr, rfl⟩ :=
    List.mem_map.mp (((List.perm_insertionSort (topMetricLE m) _).mem_iff).mp ho)
  have hrflt : r ∈ flt :=
    (List.perm_insertionSort (pageMetricLE m) flt).mem_iff.mp hr
  refine ⟨⟨r, hrflt, rfl, rfl, rfl, rfl, rfl⟩, ?_, ?_⟩
  · have hsome : (srt.find? (fun s => s.page == r.page)).isSome := by
      rw [List.find?_isSome]
      exact ⟨r, hr, by simp⟩
    obtain ⟨f0, hf0⟩ := Option.isSome_iff_exists.mp hsome
    have hf0srt : f0 ∈ srt := List.mem_of_find?_eq_some hf0
    have hf0flt : f0 ∈ flt :=
      (List.perm_insertionSort (pageMetricLE m) flt).mem_iff.mp hf0srt
    have hf0page : f0.page = r.page := by
      have h2 := List.find?_some hf0
      simpa using h2
    refine ⟨f0, hf0flt, hf0page, ?_⟩
    show ((srt.find? (fun s => s.page == r.page)).map Record.query).getD r.query
      = f0.query
    rw [hf0]
    rfl
  · show (srt.filter (fun s => s.page == r.page)).length
      = (flt.filter (fun s => s.page == r.page)).length
    exact ((List.perm_insertionSort (pageMetricLE m) flt).filter _).length_eq

/-- C4 witness: in a concrete run, the first output row's group count is
the number of filtered records of its page. -/
theorem output_row_invariants_witness :
    outRowA.q_pages_top_query =
      ((filteredRecords "" "No" [rowA, rowB]).filter
        (fun s => s.page == outRowA.page)).length :=
  (output_row_invariants [rowA, rowB] Metric.clicks "" "No"
    [outRowA, outRowB] outRowA rfl (List.mem_cons_self _ _)).2.2

/-- C5 counterexample: with brand term "." the code's regex matching
removes the record with query "abc" although "abc" does not contain "."
as a substring — the spec-worded substring filter `brandFilterSpec` keeps
it.  The brand filter is therefore not plain substring matching. -/
theorem brandFilter_not_substring :
    brandFilter "." [dotlessRow] = [] ∧
    brandFilterSpec "." [dotlessRow] = [dotlessRow] :=
  ⟨rfl, rfl⟩

/-- C5 amended: the brand filter matches the trimmed comma-separated
terms as one regular expression (terms joined with `|`, `re.search`
semantics); when the non-empty term list is free of regex metacharacters
this coincides with the spec's reading — it removes exactly the records
whose query contains some trimmed term as a case-sensitive substring and
keeps every other record. -/
theorem brandFilter_eq_substring_of_meta_free (bt : String) (rs : List Record)
    (hne : bt ≠ "")
    (hmeta : ∀ t ∈ (splitOnChar ',' bt.toList).map stripEnds,
      ∀ c ∈ t, regexMeta c = false) :
    brandFilter bt rs = brandFilterSpec bt rs := by
  unfold brandFilter brandFilterSpec
  rw [if_neg hne, if_neg hne]
  apply List.filter_congr
  intro r _
  have hterms : ((splitOnChar ',' bt.toList).map stripEnds) ≠ [] := by
    intro h
    exact splitOnChar_ne_nil ',' bt.toList (List.map_eq_nil_iff.mp h)
  have hbar : ∀ t ∈ (splitOnChar ',' bt.toList).map stripEnds, '|' ∉ t := by
    intro t ht hmem
    have h2 := hmeta t ht '|' hmem
    simp [regexMeta] at h2
  congr 1
  unfold regexSearch
  rw [splitOnChar_intercalate '|' _ hterms hbar]
  exact any_congr_mem
    (fun t ht => searchPiece_eq_litSearch (hmeta t ht) r.query.toList)

/-- C5 amended witness: the metacharacter-free list "brand, shoes"
filters a concrete frame identically under regex and substring
matching. -/
theorem brandFilter_eq_substring_of_meta_free_witness :
    brandFilter "brand, shoes" [brandedRow, plainRow] =
      brandFilterSpec "brand, shoes" [brandedRow, plainRow] :=
  brandFilter_eq_substring_of_meta_free "brand, shoes" [brandedRow, plainRow]
    (by decide) (by decide)

/-- C6: with zero-click exclusion enabled ("Si"), the collection reaching
aggregation is exactly the brand-filtered collection restricted to
records with `clicks > 0`: the zero-click filter runs after the brand
filter, drops every record with `clicks ≤ 0` and keeps every record with
`clicks > 0`. -/
theorem zero_click_drops_exactly (bt : String) (rs : List Record) :
    filteredRecords bt "Si" rs
      = (brandFilter bt rs).filter (fun r => 0 < r.clicks) ∧
    ∀ r : Record, r ∈ filteredRecords bt "Si" rs ↔
      (r ∈ brandFilter bt rs ∧ 0 < r.clicks) := by
  constructor
  · rfl
  · intro r
    simp [filteredRecords, zeroClickFilter, List.mem_filter]

/-- C7: no deduplication or dropping — a successful run returns exactly
one output row per filtered input record, duplicate `(query, page)` pairs
included. -/
theorem output_length_eq_filtered (records : List Record) (m : Metric)
    (bt zc : String) (outp : List RankedRecord)
    (hout : get_top_query records m bt zc = Except.ok outp) :
    outp.length = (filteredRecords bt zc records).length := by
  rw [get_top_query_ok_eq records m bt zc outp hout,
    (List.perm_insertionSort (topMetricLE m) _).length_eq, addTopQuery,
    List.length_map, (List.perm_insertionSort (pageMetricLE m) _).length_eq]

/-- C7 witness: a run over two identical records (a duplicated
`(query, page)` pair) returns two rows. -/
theorem output_length_eq_filtered_witness :
    ([outRowA, outRowA] : List RankedRecord).length =
      (filteredRecords "" "No" [rowA, rowA]).length :=
  output_length_eq_filtered [rowA, rowA] Metric.clicks "" "No"
    [outRowA, outRowA] rfl

/-- C8: the pipeline is deterministic — two runs on equal record
collections with equal metric, brand-term and zero-click parameters
return equal tables, row for row. -/
theorem get_top_query_deterministic (rs1 rs2 : List Record) (m1 m2 : Metric)
    (bt1 bt2 zc1 zc2 : String)
    (hr : rs1 = rs2) (hm : m1 = m2) (hb : bt1 = bt2) (hz : zc1 = zc2) :
    get_top_query rs1 m1 bt1 zc1 = get_top_query rs2 m2 bt2 zc2 := by
  rw [hr, hm, hb, hz]

/-- C8 witness: a concrete pair of identical runs. -/
theorem get_top_query_deterministic_witness :
    get_top_query [rowA] Metric.clicks "b" "Si" =
      get_top_query [rowA] Metric.clicks "b" "Si" :=
  get_top_query_deterministic [rowA] [rowA] Metric.clicks Metric.clicks
    "b" "b" "Si" "Si" rfl rfl rfl rfl

/-- C9: a non-empty source whose records are all removed by the filters
does not raise: the emptiness check (line 177) precedes filtering, so the
run succeeds with an empty `RankedRecord` table — the table that carries
the seven output columns. -/
theorem empty_after_filter_returns_empty_table (records : List Record)
    (m : Metric) (bt zc : String) (hrecords : records ≠ [])
    (hf : filteredRecords bt zc records = []) :
    get_top_query records m bt zc = Except.ok ([] : List RankedRecord) := by
  have hne : records.isEmpty = false := by
    cases hre : records.isEmpty
    · rfl
    · exact absurd (List.isEmpty_iff.mp hre) hrecords
  simp only [get_top_query, hne, Bool.false_eq_true, if_false, hf]
  rfl

/-- C9 witness: one zero-click record with exclusion enabled yields the
empty table, not an error. -/
theorem empty_after_filter_returns_empty_table_witness :
    get_top_query [zeroRow] Metric.impressions "" "Si" =
      Except.ok ([] : List RankedRecord) :=
  empty_after_filter_returns_empty_table [zeroRow] Metric.impressions "" "Si"
    (List.cons_ne_nil _ _) rfl

/-- C10: zero-click exclusion triggers only on the exact string "Si"; for
any other `zero_clicks` value the collection passes through unchanged,
zero-click records included. -/
theorem zero_click_only_Si (zc : String) (l : List Record) (h : zc ≠ "Si") :
    zeroClickFilter zc l = l := by
  simp [zeroClickFilter, h]

/-- C10 witness: the value "No" keeps a zero-click record. -/
theorem zero_click_only_Si_witness :
    zeroClickFilter "No" [zeroRow] = [zeroRow] :=
  zero_click_only_Si "No" [zeroRow] (by decide)

/-- C1 witness: a concrete run with a metric tie — page "/x" has two
records with 5 clicks each, and the one occurring first in the input
("a") is selected as the page's top query. -/
theorem top_query_is_first_max_witness :
    (((filteredRecords "" "No" [rowA, rowB]).filter (fun s => s.page == "/x")).find?
        (fun s => metricVal Metric.clicks s ==
          maxMetric Metric.clicks
            ((filteredRecords "" "No" [rowA, rowB]).filter (fun s => s.page == "/x")))).map
      Record.query = some "a" :=
  top_query_is_first_max [rowA, rowB] Metric.clicks "" "No" "/x"
    [outRowA, outRowB] outRowA rfl (List.mem_cons_self _ _) rfl
